import Mathlib

/-!
Shallow embedding of the reverse-mode autodiff core of the repository
(`src/autodiff/src/node.rs`), and proofs about it.

The Rust `Node<T>` is an enum whose variants each hold a forward value `T`,
an `Option<T>` gradient, and zero/one/two children of type
`Rc<RefCell<Node<T>>>`.  Children are shared, mutably aliased cells: the same
cell can be a child of several parents.  We embed this as

* `G` — the immutable part of a node: its variant tag, its cell id, and the
  (ids of the) children, as a tree.  Aliasing is represented by two subtrees
  carrying the same cell id.  No code path in `node.rs` ever mutates the tag
  or the children pointers of a node, so this part is fixed.
* `St T` — the mutable contents of the `RefCell`s: a map from cell id to a
  `Cell` holding the forward value and the optional gradient.  `set_grad`
  only ever writes the gradient field; the theorems below prove values are
  preserved, mirroring the fact that the Rust code never writes `val`.

The element type `T` is generic in the Rust code (`T: RealElement +
From<f64>`); we embed the trait bound as an explicit dictionary
`RealElementOps` of the operations `node.rs` actually calls: `+`, `*`, `/`,
`exp`, `ln`, `pow` and the `From<f64>` conversion (used only at the literals
`1_f64` and `-1_f64`, which we carry as exact rationals).

Panics (`Option::unwrap` on `None` in `propagate_backward`, and the
unconditional `panic!` in `AddAssign`) are embedded as `Option`/`PanicOr`
results: `none`/`panicked` is the unrecoverable stoppage.
-/

namespace Autodiff

/-- The operations the trait bound `T: RealElement + From<f64>` provides to
`node.rs`: closed `+`, `*`, `/` from `Element`, and `exp`, `ln`, `pow` from
`RealElement` (`src/interfaces/src/tensors.rs`), plus the `From<f64>`
conversion.  `ofF64 q` stands for `<f64 as Into<T>>::into(l)` for a literal
`l` represented exactly by the rational `q`. -/
structure RealElementOps (T : Type) where
  add : T → T → T
  mul : T → T → T
  div : T → T → T
  exp : T → T
  ln : T → T
  pow : T → T → T
  ofF64 : ℚ → T

/-- The mutable contents of one `Rc<RefCell<Node<T>>>` cell: the forward
value and the optional gradient. -/
structure Cell (T : Type) where
  val : T
  grad : Option T
deriving DecidableEq

/-- The heap of cells, addressed by cell id. -/
abbrev St (T : Type) := Nat → Cell T

/-- The immutable shape of a graph node: variant tag, cell id, children.
Mirrors the six variants of `enum Node<T>`; the same cell id appearing in two
places means the two occurrences alias one `Rc<RefCell<..>>` cell.  For
`Pow`, the base is in position 1 and the exponent in position 2, as in the
source. -/
inductive G where
  | Leaf (id : Nat)
  | Sum (id : Nat) (l r : G)
  | Prod (id : Nat) (l r : G)
  | Exp (id : Nat) (c : G)
  | Ln (id : Nat) (c : G)
  | Pow (id : Nat) (b e : G)
deriving DecidableEq

/-- The cell id of a node. -/
def G.nid : G → Nat
  | .Leaf i | .Sum i _ _ | .Prod i _ _ | .Exp i _ | .Ln i _ | .Pow i _ _ => i

/-- Whether a node is a `Leaf`. -/
def G.isLeaf : G → Bool
  | .Leaf _ => true
  | _ => false

/-- `Node::val`: read the forward value of a node from the heap. -/
def val {T : Type} (st : St T) (g : G) : T :=
  (st g.nid).val

/-- `Node::grad`: read the optional gradient of a node from the heap. -/
def grad {T : Type} (st : St T) (g : G) : Option T :=
  (st g.nid).grad

/-- `Node::set_grad`: unconditionally overwrite the gradient of cell `i`
with `Some new_grad`.  The value field is untouched. -/
def set_grad {T : Type} (st : St T) (i : Nat) (new_grad : T) : St T :=
  fun j => if j = i then { val := (st i).val, grad := some new_grad } else st j

/-- `Node::propagate_backward`.  The Rust method first clones `self.val()`
and unwraps `self.grad()` — `unwrap` on `None` is a panic, embedded as
`none` — then matches on the variant, writes each child's gradient with
`set_grad` (an overwrite) and recurses into the children in order (first
operand, then second).  The write expressions are transcribed verbatim:

* `Sum`:  both children get `self_grad`;
* `Prod`: `n1 ← n2.val * self_grad`, then `n2 ← n1.val * self_grad`;
* `Exp`:  `n ← self_val` (not multiplied by `self_grad`);
* `Ln`:   `n ← into(1_f64) / self_val` (not multiplied by `self_grad`);
* `Pow`:  with `b_val`, `e_val` read before either write,
  `b ← e_val * b_val.pow(e_val + into(-1_f64))`, then
  `e ← b_val.pow(e_val) * b_val.ln()` (neither multiplied by `self_grad`);
* `Leaf`: no children, nothing to do. -/
def propagate_backward {T : Type} (ops : RealElementOps T) : G → St T → Option (St T)
  | .Leaf i, st =>
    match (st i).grad with
    | none => none
    | some _ => some st
  | .Sum i l r, st =>
    match (st i).grad with
    | none => none
    | some self_grad =>
      let st2 := set_grad (set_grad st l.nid self_grad) r.nid self_grad
      match propagate_backward ops l st2 with
      | none => none
      | some st3 => propagate_backward ops r st3
  | .Prod i l r, st =>
    match (st i).grad with
    | none => none
    | some self_grad =>
      let st1 := set_grad st l.nid (ops.mul (st r.nid).val self_grad)
      let st2 := set_grad st1 r.nid (ops.mul (st1 l.nid).val self_grad)
      match propagate_backward ops l st2 with
      | none => none
      | some st3 => propagate_backward ops r st3
  | .Exp i c, st =>
    match (st i).grad with
    | none => none
    | some _ =>
      propagate_backward ops c (set_grad st c.nid (st i).val)
  | .Ln i c, st =>
    match (st i).grad with
    | none => none
    | some _ =>
      propagate_backward ops c (set_grad st c.nid (ops.div (ops.ofF64 1) (st i).val))
  | .Pow i b e, st =>
    match (st i).grad with
    | none => none
    | some _ =>
      let b_val := (st b.nid).val
      let e_val := (st e.nid).val
      let st1 := set_grad st b.nid (ops.mul e_val (ops.pow b_val (ops.add e_val (ops.ofF64 (-1)))))
      let st2 := set_grad st1 e.nid (ops.mul (ops.pow b_val e_val) (ops.ln b_val))
      match propagate_backward ops b st2 with
      | none => none
      | some st3 => propagate_backward ops e st3

/-- `Node::backward`: seed the receiver's gradient with `set_grad`, then
propagate.  `none` is the panic outcome. -/
def backward {T : Type} (ops : RealElementOps T) (g : G) (gradient : T) (st : St T) : Option (St T) :=
  propagate_backward ops g (set_grad st g.nid gradient)

/-- Allocate a fresh cell `i` holding value `v` and gradient `gr` (the
`Rc::new(RefCell::new(..))` of a constructor). -/
def alloc {T : Type} (st : St T) (i : Nat) (v : T) (gr : Option T) : St T :=
  fun j => if j = i then { val := v, grad := gr } else st j

namespace Node

/-- `Node::new(val, grad)`: a leaf in a fresh cell `i`. -/
def new {T : Type} (v : T) (gr : Option T) (i : Nat) (st : St T) : G × St T :=
  (G.Leaf i, alloc st i v gr)

/-- `impl Add for Node`: a `Sum`-tagged node whose value is
`self.val() + rhs.val()`, gradient `None`, in fresh cell `i`. -/
def add {T : Type} (ops : RealElementOps T) (l r : G) (i : Nat) (st : St T) : G × St T :=
  (G.Sum i l r, alloc st i (ops.add (val st l) (val st r)) none)

/-- `impl Mul for Node`: a `Prod`-tagged node whose value is
`self.val() * rhs.val()`, gradient `None`, in fresh cell `i`. -/
def mul {T : Type} (ops : RealElementOps T) (l r : G) (i : Nat) (st : St T) : G × St T :=
  (G.Prod i l r, alloc st i (ops.mul (val st l) (val st r)) none)

/-- `impl Div for Node`: as in the source, the constructed node is
`Prod`-tagged (not a quotient variant) and its value is
`self.val() / rhs.val()`. -/
def div {T : Type} (ops : RealElementOps T) (l r : G) (i : Nat) (st : St T) : G × St T :=
  (G.Prod i l r, alloc st i (ops.div (val st l) (val st r)) none)

/-- `impl Exp for Node`: an `Exp`-tagged node whose value is
`self.val().exp()`. -/
def exp {T : Type} (ops : RealElementOps T) (c : G) (i : Nat) (st : St T) : G × St T :=
  (G.Exp i c, alloc st i (ops.exp (val st c)) none)

/-- `impl Ln for Node`: as in the source, the constructed node is
`Exp`-tagged (not `Ln`-tagged) and its value is `self.val().ln()`. -/
def ln {T : Type} (ops : RealElementOps T) (c : G) (i : Nat) (st : St T) : G × St T :=
  (G.Exp i c, alloc st i (ops.ln (val st c)) none)

/-- `impl Pow for Node`: a `Pow`-tagged node, base in position 1, exponent
in position 2, value `self.val().pow(exponent.val())`. -/
def pow {T : Type} (ops : RealElementOps T) (b e : G) (i : Nat) (st : St T) : G × St T :=
  (G.Pow i b e, alloc st i (ops.pow (val st b) (val st e)) none)

end Node

/-- Outcome of a call that may `panic!`. -/
inductive PanicOr (α : Type _) where
  | panicked (msg : String)
  | ok (a : α)
deriving DecidableEq

/-- `impl AddAssign for Node`: the body is unconditionally
`panic!("Unexpected call to AddAssign on a Node.")`, although the `Element`
trait (`src/interfaces/src/tensors.rs`) requires `AddAssign`.  Both
arguments are ignored. -/
def add_assign {T : Type} (_self _rhs : G × St T) : PanicOr Unit :=
  PanicOr.panicked "Unexpected call to AddAssign on a Node."

/-- `set_grad` never changes a value field. -/
theorem set_grad_val {T : Type} (st : St T) (i : Nat) (v : T) (j : Nat) :
    ((set_grad st i v) j).val = (st j).val := by
  by_cases h : j = i <;> simp [set_grad, h]

/-- The gradient after `set_grad`: overwritten at the target cell, untouched
elsewhere. -/
theorem set_grad_grad {T : Type} (st : St T) (i : Nat) (v : T) (j : Nat) :
    ((set_grad st i v) j).grad = if j = i then some v else (st j).grad := by
  by_cases h : j = i <;> simp [set_grad, h]

/-- Frame property of the propagator: a successful `propagate_backward` run
leaves every cell's value field unchanged. -/
theorem propagate_backward_val {T : Type} (ops : RealElementOps T) (g : G) :
    ∀ (st st' : St T), propagate_backward ops g st = some st' →
      ∀ j, (st' j).val = (st j).val := by
  induction g with
  | Leaf i =>
    intro st st' h j
    simp only [propagate_backward] at h
    cases hg : (st i).grad with
    | none => simp [hg] at h
    | some sg => simp only [hg, Option.some_inj] at h; rw [← h]
  | Sum i l r ihl ihr =>
    intro st st' h j
    simp only [propagate_backward] at h
    cases hg : (st i).grad with
    | none => simp [hg] at h
    | some sg =>
      simp only [hg] at h
      cases hp : propagate_backward ops l (set_grad (set_grad st l.nid sg) r.nid sg) with
      | none => simp [hp] at h
      | some st3 =>
        simp only [hp] at h
        rw [ihr _ _ h j, ihl _ _ hp j, set_grad_val, set_grad_val]
  | Prod i l r ihl ihr =>
    intro st st' h j
    simp only [propagate_backward] at h
    cases hg : (st i).grad with
    | none => simp [hg] at h
    | some sg =>
      simp only [hg] at h
      cases hp : propagate_backward ops l
          (set_grad (set_grad st l.nid (ops.mul (st r.nid).val sg)) r.nid
            (ops.mul ((set_grad st l.nid (ops.mul (st r.nid).val sg)) l.nid).val sg)) with
      | none => simp [hp] at h
      | some st3 =>
        simp only [hp] at h
        rw [ihr _ _ h j, ihl _ _ hp j, set_grad_val, set_grad_val]
  | Exp i c ihc =>
    intro st st' h j
    simp only [propagate_backward] at h
    cases hg : (st i).grad with
    | none => simp [hg] at h
    | some sg =>
      simp only [hg] at h
      rw [ihc _ _ h j, set_grad_val]
  | Ln i c ihc =>
    intro st st' h j
    simp only [propagate_backward] at h
    cases hg : (st i).grad with
    | none => simp [hg] at h
    | some sg =>
      simp only [hg] at h
      rw [ihc _ _ h j, set_grad_val]
  | Pow i b e ihb ihe =>
    intro st st' h j
    simp only [propagate_backward] at h
    cases hg : (st i).grad with
    | none => simp [hg] at h
    | some sg =>
      simp only [hg] at h
      cases hp : propagate_backward ops b
          (set_grad
            (set_grad st b.nid
              (ops.mul (st e.nid).val
                (ops.pow (st b.nid).val (ops.add (st e.nid).val (ops.ofF64 (-1))))))
            e.nid (ops.mul (ops.pow (st b.nid).val (st e.nid).val) (ops.ln (st b.nid).val))) with
      | none => simp [hp] at h
      | some st3 =>
        simp only [hp] at h
        rw [ihe _ _ h j, ihb _ _ hp j, set_grad_val, set_grad_val]

/-- `set_grad` writes `some _` at its target, so it preserves set-ness of any
cell's gradient. -/
theorem set_grad_isSome_mono {T : Type} (st : St T) (i : Nat) (v : T) (j : Nat)
    (h : ((st j).grad).isSome) : (((set_grad st i v) j).grad).isSome := by
  rw [set_grad_grad]; split <;> simp [h]

/-- After `set_grad st i v`, cell `i` has a set gradient. -/
theorem set_grad_isSome_self {T : Type} (st : St T) (i : Nat) (v : T) :
    (((set_grad st i v) i).grad).isSome := by
  simp [set_grad]

/-- A successful `propagate_backward` run only ever writes `Some` gradients,
so every cell whose gradient was set stays set. -/
theorem propagate_backward_gradSome {T : Type} (ops : RealElementOps T) (g : G) :
    ∀ (st st' : St T), propagate_backward ops g st = some st' →
      ∀ j, ((st j).grad).isSome → ((st' j).grad).isSome := by
  induction g with
  | Leaf i =>
    intro st st' h j hj
    simp only [propagate_backward] at h
    cases hg : (st i).grad with
    | none => simp [hg] at h
    | some sg => simp only [hg, Option.some_inj] at h; rw [← h]; exact hj
  | Sum i l r ihl ihr =>
    intro st st' h j hj
    simp only [propagate_backward] at h
    cases hg : (st i).grad with
    | none => simp [hg] at h
    | some sg =>
      simp only [hg] at h
      cases hp : propagate_backward ops l (set_grad (set_grad st l.nid sg) r.nid sg) with
      | none => simp [hp] at h
      | some st3 =>
        simp only [hp] at h
        exact ihr _ _ h j (ihl _ _ hp j (set_grad_isSome_mono _ _ _ _ (set_grad_isSome_mono _ _ _ _ hj)))
  | Prod i l r ihl ihr =>
    intro st st' h j hj
    simp only [propagate_backward] at h
    cases hg : (st i).grad with
    | none => simp [hg] at h
    | some sg =>
      simp only [hg] at h
      cases hp : propagate_backward ops l
          (set_grad (set_grad st l.nid (ops.mul (st r.nid).val sg)) r.nid
            (ops.mul ((set_grad st l.nid (ops.mul (st r.nid).val sg)) l.nid).val sg)) with
      | none => simp [hp] at h
      | some st3 =>
        simp only [hp] at h
        exact ihr _ _ h j (ihl _ _ hp j (set_grad_isSome_mono _ _ _ _ (set_grad_isSome_mono _ _ _ _ hj)))
  | Exp i c ihc =>
    intro st st' h j hj
    simp only [propagate_backward] at h
    cases hg : (st i).grad with
    | none => simp [hg] at h
    | some sg =>
      simp only [hg] at h
      exact ihc _ _ h j (set_grad_isSome_mono _ _ _ _ hj)
  | Ln i c ihc =>
    intro st st' h j hj
    simp only [propagate_backward] at h
    cases hg : (st i).grad with
    | none => simp [hg] at h
    | some sg =>
      simp only [hg] at h
      exact ihc _ _ h j (set_grad_isSome_mono _ _ _ _ hj)
  | Pow i b e ihb ihe =>
    intro st st' h j hj
    simp only [propagate_backward] at h
    cases hg : (st i).grad with
    | none => simp [hg] at h
    | some sg =>
      simp only [hg] at h
      cases hp : propagate_backward ops b
          (set_grad
            (set_grad st b.nid
              (ops.mul (st e.nid).val
                (ops.pow (st b.nid).val (ops.add (st e.nid).val (ops.ofF64 (-1))))))
            e.nid (ops.mul (ops.pow (st b.nid).val (st e.nid).val) (ops.ln (st b.nid).val))) with
      | none => simp [hp] at h
      | some st3 =>
        simp only [hp] at h
        exact ihe _ _ h j (ihb _ _ hp j (set_grad_isSome_mono _ _ _ _ (set_grad_isSome_mono _ _ _ _ hj)))

/-- If the gradient of the node `propagate_backward` is called on is already
set, the run cannot panic: every child's gradient is written before the
recursive call into it, so the `unwrap` at the top of each recursive call
succeeds. -/
theorem propagate_backward_isSome {T : Type} (ops : RealElementOps T) (g : G) :
    ∀ (st : St T), ((st g.nid).grad).isSome → (propagate_backward ops g st).isSome := by
  induction g with
  | Leaf i =>
    intro st hs
    simp only [G.nid] at hs
    cases hg : (st i).grad with
    | none => rw [hg] at hs; simp at hs
    | some sg => simp [propagate_backward, hg]
  | Sum i l r ihl ihr =>
    intro st hs
    simp only [G.nid] at hs
    cases hg : (st i).grad with
    | none => rw [hg] at hs; simp at hs
    | some sg =>
      simp only [propagate_backward, hg]
      have h1 : (((set_grad (set_grad st l.nid sg) r.nid sg) l.nid).grad).isSome :=
        set_grad_isSome_mono _ _ _ _ (set_grad_isSome_self _ _ _)
      cases hp : propagate_backward ops l (set_grad (set_grad st l.nid sg) r.nid sg) with
      | none => exact absurd (ihl _ h1) (by rw [hp]; simp)
      | some st3 =>
        have h2 : ((st3 r.nid).grad).isSome :=
          propagate_backward_gradSome ops l _ _ hp r.nid (set_grad_isSome_self _ _ _)
        simpa using ihr st3 h2
  | Prod i l r ihl ihr =>
    intro st hs
    simp only [G.nid] at hs
    cases hg : (st i).grad with
    | none => rw [hg] at hs; simp at hs
    | some sg =>
      simp only [propagate_backward, hg]
      have h1 : (((set_grad (set_grad st l.nid (ops.mul (st r.nid).val sg)) r.nid
          (ops.mul ((set_grad st l.nid (ops.mul (st r.nid).val sg)) l.nid).val sg)) l.nid).grad).isSome :=
        set_grad_isSome_mono _ _ _ _ (set_grad_isSome_self _ _ _)
      cases hp : propagate_backward ops l
          (set_grad (set_grad st l.nid (ops.mul (st r.nid).val sg)) r.nid
            (ops.mul ((set_grad st l.nid (ops.mul (st r.nid).val sg)) l.nid).val sg)) with
      | none => exact absurd (ihl _ h1) (by rw [hp]; simp)
      | some st3 =>
        have h2 : ((st3 r.nid).grad).isSome :=
          propagate_backward_gradSome ops l _ _ hp r.nid (set_grad_isSome_self _ _ _)
        simpa using ihr st3 h2
  | Exp i c ihc =>
    intro st hs
    simp only [G.nid] at hs
    cases hg : (st i).grad with
    | none => rw [hg] at hs; simp at hs
    | some sg =>
      simp only [propagate_backward, hg]
      exact ihc _ (set_grad_isSome_self _ _ _)
  | Ln i c ihc =>
    intro st hs
    simp only [G.nid] at hs
    cases hg : (st i).grad with
    | none => rw [hg] at hs; simp at hs
    | some sg =>
      simp only [propagate_backward, hg]
      exact ihc _ (set_grad_isSome_self _ _ _)
  | Pow i b e ihb ihe =>
    intro st hs
    simp only [G.nid] at hs
    cases hg : (st i).grad with
    | none => rw [hg] at hs; simp at hs
    | some sg =>
      simp only [propagate_backward, hg]
      have h1 : (((set_grad
          (set_grad st b.nid
            (ops.mul (st e.nid).val
              (ops.pow (st b.nid).val (ops.add (st e.nid).val (ops.ofF64 (-1))))))
          e.nid (ops.mul (ops.pow (st b.nid).val (st e.nid).val) (ops.ln (st b.nid).val))) b.nid).grad).isSome :=
        set_grad_isSome_mono _ _ _ _ (set_grad_isSome_self _ _ _)
      cases hp : propagate_backward ops b
          (set_grad
            (set_grad st b.nid
              (ops.mul (st e.nid).val
                (ops.pow (st b.nid).val (ops.add (st e.nid).val (ops.ofF64 (-1))))))
            e.nid (ops.mul (ops.pow (st b.nid).val (st e.nid).val) (ops.ln (st b.nid).val))) with
      | none => exact absurd (ihb _ h1) (by rw [hp]; simp)
      | some st3 =>
        have h2 : ((st3 e.nid).grad).isSome :=
          propagate_backward_gradSome ops b _ _ hp e.nid (set_grad_isSome_self _ _ _)
        simpa using ihe st3 h2

/-- A concrete dictionary at `T = ℤ`, used only to instantiate the generic
theorems (which hold for every dictionary) at concrete inputs.  The `div`,
`exp`, `ln` and `pow` fields are placeholders: every concrete instantiation
below either never applies them, or only checks facts that hold for an
arbitrary dictionary. -/
def opsZ : RealElementOps ℤ where
  add := fun x y => x + y
  mul := fun x y => x * y
  div := fun x y => x / y
  exp := fun x => x
  ln := fun x => x
  pow := fun x _ => x
  ofF64 := fun q => q.num

/-- A model of `f64` adequate for the special-value behavior of division:
a finite double is carried as an exact rational (rounding of finite results
is not modelled; the facts checked at this type involve only signs, zeros
and infinities, where IEEE 754 prescribes exact results), plus the special
values.  Negative zero is not modelled. -/
inductive F where
  | fin (q : ℚ)
  | pinf
  | ninf
  | nan
deriving DecidableEq

/-- IEEE 754 division, as the Rust `/` on `f64` behaves ("Same division by
zero rules as standard division operator", per the comment in `impl Div for
Node`): a nonzero finite numerator over zero is a signed infinity, `0.0 /
0.0` is NaN, infinities over finite values keep the combined sign,
`inf / inf` is NaN, and NaN propagates. -/
def F.div : F → F → F
  | F.nan, _ => F.nan
  | _, F.nan => F.nan
  | F.fin a, F.fin b =>
    if b = 0 then (if a = 0 then F.nan else if 0 < a then F.pinf else F.ninf)
    else F.fin (a / b)
  | F.fin _, F.pinf | F.fin _, F.ninf => F.fin 0
  | F.pinf, F.fin b => if b < 0 then F.ninf else F.pinf
  | F.ninf, F.fin b => if b < 0 then F.pinf else F.ninf
  | F.pinf, F.pinf | F.pinf, F.ninf | F.ninf, F.pinf | F.ninf, F.ninf => F.nan

/-- IEEE 754 addition on the model (finite sums exact, `inf + -inf` NaN,
NaN propagates). -/
def F.add : F → F → F
  | F.nan, _ => F.nan
  | _, F.nan => F.nan
  | F.fin a, F.fin b => F.fin (a + b)
  | F.pinf, F.ninf | F.ninf, F.pinf => F.nan
  | F.pinf, _ | _, F.pinf => F.pinf
  | F.ninf, _ | _, F.ninf => F.ninf

/-- IEEE 754 multiplication on the model (finite products exact,
`0 * inf` NaN, NaN propagates). -/
def F.mul : F → F → F
  | F.nan, _ => F.nan
  | _, F.nan => F.nan
  | F.fin a, F.fin b => F.fin (a * b)
  | F.pinf, F.pinf | F.ninf, F.ninf => F.pinf
  | F.pinf, F.ninf | F.ninf, F.pinf => F.ninf
  | F.pinf, F.fin b | F.fin b, F.pinf =>
    if b = 0 then F.nan else if 0 < b then F.pinf else F.ninf
  | F.ninf, F.fin b | F.fin b, F.ninf =>
    if b = 0 then F.nan else if 0 < b then F.ninf else F.pinf

/-- The element dictionary at the `f64` model.  `exp`, `ln` and `pow` are
transcendental and not representable exactly on rationals; they are
placeholders here, and no theorem below instantiated at `opsF` involves
them. -/
def opsF : RealElementOps F where
  add := F.add
  mul := F.mul
  div := F.div
  exp := fun _ => F.nan
  ln := fun _ => F.nan
  pow := fun _ _ => F.nan
  ofF64 := fun q => F.fin q

/-- A concrete heap: every cell holds value `0` with gradient unset. -/
def stW : St ℤ := fun _ => { val := 0, grad := none }

/-- An alternative concrete heap for diamond examples: cell 5 holds value
`2`, all other cells hold value `1`; all gradients unset. -/
def stD : St ℤ := fun j => if j = 5 then { val := 2, grad := none } else { val := 1, grad := none }

/-- The heap for the division-by-zero fixture: cell 0 is the leaf `3.1`
(the positive double written `3.1`; only its sign matters here), cell 1 the
leaf `0.0`. -/
def stDiv : St F := fun j =>
  if j = 0 then { val := F.fin (31 / 10), grad := none } else { val := F.fin 0, grad := none }

/-- A diamond-shaped graph: the leaf cell `0` is an operand of two different
parents — the `Sum` node in cell `1` and the `Prod` node in cell `2` — and
both parents are reached from the root `Sum` node in cell `3` in one
backward traversal (cell `1`'s subtree first, cell `2`'s last). -/
def diamond : G :=
  G.Sum 3 (G.Sum 1 (G.Leaf 0) (G.Leaf 4)) (G.Prod 2 (G.Leaf 0) (G.Leaf 5))

/-- C1: every graph-building operator — addition, multiplication, division,
exponential, natural log, power — stores, in the newly constructed node, the
exact application of the corresponding element operation to its operands'
values as read at construction time; and a (later) successful `backward`
call leaves every cell's value unchanged, so the stored value is unaffected
by it. -/
theorem forward_correctness {T : Type} (ops : RealElementOps T) (l r c : G) (i : Nat)
    (st st₀ st' : St T) (g : G) (seed : T) (j : Nat)
    (h : backward ops g seed st₀ = some st') :
    val (Node.add ops l r i st).2 (Node.add ops l r i st).1 = ops.add (val st l) (val st r)
    ∧ val (Node.mul ops l r i st).2 (Node.mul ops l r i st).1 = ops.mul (val st l) (val st r)
    ∧ val (Node.div ops l r i st).2 (Node.div ops l r i st).1 = ops.div (val st l) (val st r)
    ∧ val (Node.exp ops c i st).2 (Node.exp ops c i st).1 = ops.exp (val st c)
    ∧ val (Node.ln ops c i st).2 (Node.ln ops c i st).1 = ops.ln (val st c)
    ∧ val (Node.pow ops l r i st).2 (Node.pow ops l r i st).1 = ops.pow (val st l) (val st r)
    ∧ (st' j).val = (st₀ j).val := by
  refine ⟨?_, ?_, ?_, ?_, ?_, ?_, ?_⟩
  · simp [Node.add, val, alloc, G.nid]
  · simp [Node.mul, val, alloc, G.nid]
  · simp [Node.div, val, alloc, G.nid]
  · simp [Node.exp, val, alloc, G.nid]
  · simp [Node.ln, val, alloc, G.nid]
  · simp [Node.pow, val, alloc, G.nid]
  · have h2 : propagate_backward ops g (set_grad st₀ g.nid seed) = some st' := by
      simpa [backward] using h
    rw [propagate_backward_val ops g _ _ h2 j, set_grad_val]

/-- Witness for `forward_correctness` at concrete inputs. -/
theorem forward_correctness_witness :
    val (Node.add opsZ (G.Leaf 0) (G.Leaf 1) 2 stW).2 (Node.add opsZ (G.Leaf 0) (G.Leaf 1) 2 stW).1
      = opsZ.add (val stW (G.Leaf 0)) (val stW (G.Leaf 1))
    ∧ val (Node.mul opsZ (G.Leaf 0) (G.Leaf 1) 2 stW).2 (Node.mul opsZ (G.Leaf 0) (G.Leaf 1) 2 stW).1
      = opsZ.mul (val stW (G.Leaf 0)) (val stW (G.Leaf 1))
    ∧ val (Node.div opsZ (G.Leaf 0) (G.Leaf 1) 2 stW).2 (Node.div opsZ (G.Leaf 0) (G.Leaf 1) 2 stW).1
      = opsZ.div (val stW (G.Leaf 0)) (val stW (G.Leaf 1))
    ∧ val (Node.exp opsZ (G.Leaf 0) 2 stW).2 (Node.exp opsZ (G.Leaf 0) 2 stW).1
      = opsZ.exp (val stW (G.Leaf 0))
    ∧ val (Node.ln opsZ (G.Leaf 0) 2 stW).2 (Node.ln opsZ (G.Leaf 0) 2 stW).1
      = opsZ.ln (val stW (G.Leaf 0))
    ∧ val (Node.pow opsZ (G.Leaf 0) (G.Leaf 1) 2 stW).2 (Node.pow opsZ (G.Leaf 0) (G.Leaf 1) 2 stW).1
      = opsZ.pow (val stW (G.Leaf 0)) (val stW (G.Leaf 1))
    ∧ ((set_grad stW 0 1) 0).val = (stW 0).val :=
  forward_correctness opsZ (G.Leaf 0) (G.Leaf 1) (G.Leaf 0) 2 stW stW (set_grad stW 0 1)
    (G.Leaf 0) 1 0 rfl

/-- C2: building `f = a + b` from two leaves and calling `f.backward(seed)`
succeeds and stores gradient `seed` in `a` and gradient `seed` in `b`,
exactly. -/
theorem sum_rule {T : Type} (ops : RealElementOps T) (a b i : Nat) (seed : T) (st : St T) :
    ∃ st', backward ops (Node.add ops (G.Leaf a) (G.Leaf b) i st).1 seed
              (Node.add ops (G.Leaf a) (G.Leaf b) i st).2 = some st'
      ∧ (st' a).grad = some seed ∧ (st' b).grad = some seed := by
  refine ⟨set_grad (set_grad (set_grad
      (alloc st i (ops.add (val st (G.Leaf a)) (val st (G.Leaf b))) none) i seed) a seed) b seed,
    ?_, ?_, ?_⟩
  · simp [backward, Node.add, propagate_backward, G.nid, set_grad_grad]
  · simp [set_grad_grad]
  · simp [set_grad_grad]

/-- C3: building `f = a * b` from two distinct leaves (in cells untouched by
the fresh product cell `i`) and calling `f.backward(seed)` succeeds and
stores gradient `b.value * seed` in `a` and gradient `a.value * seed` in
`b`. -/
theorem prod_rule {T : Type} (ops : RealElementOps T) (a b i : Nat) (seed : T) (st : St T)
    (hab : a ≠ b) (hia : i ≠ a) (hib : i ≠ b) :
    ∃ st', backward ops (Node.mul ops (G.Leaf a) (G.Leaf b) i st).1 seed
              (Node.mul ops (G.Leaf a) (G.Leaf b) i st).2 = some st'
      ∧ (st' a).grad = some (ops.mul ((st b).val) seed)
      ∧ (st' b).grad = some (ops.mul ((st a).val) seed) := by
  refine ⟨set_grad (set_grad (set_grad
      (alloc st i (ops.mul (val st (G.Leaf a)) (val st (G.Leaf b))) none) i seed)
      a (ops.mul ((st b).val) seed)) b (ops.mul ((st a).val) seed),
    ?_, ?_, ?_⟩
  · simp [backward, Node.mul, propagate_backward, G.nid, set_grad_grad, set_grad_val, alloc,
      hab, hia, hib, Ne.symm hab, Ne.symm hia, Ne.symm hib]
  · simp [set_grad_grad, hab, Ne.symm hab]
  · simp [set_grad_grad]

/-- Witness for `prod_rule` at concrete inputs. -/
theorem prod_rule_witness :
    ∃ st', backward opsZ (Node.mul opsZ (G.Leaf 0) (G.Leaf 1) 2 stD).1 5
              (Node.mul opsZ (G.Leaf 0) (G.Leaf 1) 2 stD).2 = some st'
      ∧ (st' 0).grad = some (opsZ.mul ((stD 1).val) 5)
      ∧ (st' 1).grad = some (opsZ.mul ((stD 0).val) 5) :=
  prod_rule opsZ 0 1 2 5 stD (by decide) (by decide) (by decide)

/-- C4: backward propagation through an `Exp`-variant node (reached with an
arbitrary already-set gradient `gr`, exactly as a backward pass leaves it)
sets the operand's gradient to the parent's value — for a node built by
`Node.exp`, `exp` of the operand's value — with no factor of `gr`; and
through a `Pow`-variant node it sets the base's gradient to
`e.value * b.value ^ (e.value + (-1))` and the exponent's gradient to
`b.value ^ e.value * ln(b.value)`, again with no factor of `gr`.  The seed
`gr` is universally quantified and absent from all three stored
gradients. -/
theorem exp_pow_no_chain_rule {T : Type} (ops : RealElementOps T) (c a b i k : Nat)
    (gr : T) (st : St T) (hka : k ≠ a) (hkb : k ≠ b) (hab : a ≠ b) :
    (∃ st', backward ops (Node.exp ops (G.Leaf c) i st).1 gr (Node.exp ops (G.Leaf c) i st).2 = some st'
        ∧ (st' c).grad = some (ops.exp ((st c).val)))
    ∧ (∃ st', backward ops (Node.pow ops (G.Leaf a) (G.Leaf b) k st).1 gr
                (Node.pow ops (G.Leaf a) (G.Leaf b) k st).2 = some st'
        ∧ (st' a).grad
            = some (ops.mul ((st b).val) (ops.pow ((st a).val) (ops.add ((st b).val) (ops.ofF64 (-1)))))
        ∧ (st' b).grad = some (ops.mul (ops.pow ((st a).val) ((st b).val)) (ops.ln ((st a).val)))) := by
  constructor
  · refine ⟨set_grad (set_grad (alloc st i (ops.exp (val st (G.Leaf c))) none) i gr)
        c (ops.exp ((st c).val)), ?_, ?_⟩
    · simp [backward, Node.exp, propagate_backward, G.nid, set_grad_grad, set_grad_val, alloc, val]
    · simp [set_grad_grad]
  · refine ⟨set_grad (set_grad (set_grad
        (alloc st k (ops.pow (val st (G.Leaf a)) (val st (G.Leaf b))) none) k gr)
        a (ops.mul ((st b).val) (ops.pow ((st a).val) (ops.add ((st b).val) (ops.ofF64 (-1))))))
        b (ops.mul (ops.pow ((st a).val) ((st b).val)) (ops.ln ((st a).val))), ?_, ?_, ?_⟩
    · simp [backward, Node.pow, propagate_backward, G.nid, set_grad_grad, set_grad_val, alloc, val,
        hka, hkb, hab, Ne.symm hka, Ne.symm hkb, Ne.symm hab]
    · simp [set_grad_grad, hab, Ne.symm hab]
    · simp [set_grad_grad]

/-- Witness for `exp_pow_no_chain_rule` at concrete inputs. -/
theorem exp_pow_no_chain_rule_witness :
    (∃ st', backward opsZ (Node.exp opsZ (G.Leaf 0) 1 stD).1 7 (Node.exp opsZ (G.Leaf 0) 1 stD).2 = some st'
        ∧ (st' 0).grad = some (opsZ.exp ((stD 0).val)))
    ∧ (∃ st', backward opsZ (Node.pow opsZ (G.Leaf 0) (G.Leaf 1) 2 stD).1 7
                (Node.pow opsZ (G.Leaf 0) (G.Leaf 1) 2 stD).2 = some st'
        ∧ (st' 0).grad
            = some (opsZ.mul ((stD 1).val) (opsZ.pow ((stD 0).val) (opsZ.add ((stD 1).val) (opsZ.ofF64 (-1)))))
        ∧ (st' 1).grad = some (opsZ.mul (opsZ.pow ((stD 0).val) ((stD 1).val)) (opsZ.ln ((stD 0).val)))) :=
  exp_pow_no_chain_rule opsZ 0 0 1 1 2 7 stD (by decide) (by decide) (by decide)

/-- C5: the division operator constructs a `Prod`-tagged node holding the
quotient of the operands' values, and the natural-log operator constructs an
`Exp`-tagged node holding the natural logarithm of the operand's value; when
backward later reaches these nodes, the rule applied is the one selected by
the (wrong) tag — the product rule writes `b.value * seed` and
`a.value * seed` into the children of the quotient node, and the exponential
rule writes the parent's value `ln(d.value)` (with no factor of the seed)
into the operand of the log node. -/
theorem div_ln_mis_tagged {T : Type} (ops : RealElementOps T) (l r c : G) (a b d i : Nat)
    (seed : T) (st : St T) (hab : a ≠ b) (hia : i ≠ a) (hib : i ≠ b) :
    (Node.div ops l r i st).1 = G.Prod i l r
    ∧ val (Node.div ops l r i st).2 (Node.div ops l r i st).1 = ops.div (val st l) (val st r)
    ∧ (Node.ln ops c i st).1 = G.Exp i c
    ∧ val (Node.ln ops c i st).2 (Node.ln ops c i st).1 = ops.ln (val st c)
    ∧ (∃ st', backward ops (Node.div ops (G.Leaf a) (G.Leaf b) i st).1 seed
                (Node.div ops (G.Leaf a) (G.Leaf b) i st).2 = some st'
        ∧ (st' a).grad = some (ops.mul ((st b).val) seed)
        ∧ (st' b).grad = some (ops.mul ((st a).val) seed))
    ∧ (∃ st', backward ops (Node.ln ops (G.Leaf d) i st).1 seed
                (Node.ln ops (G.Leaf d) i st).2 = some st'
        ∧ (st' d).grad = some (ops.ln ((st d).val))) := by
  refine ⟨rfl, ?_, rfl, ?_, ?_, ?_⟩
  · simp [Node.div, val, alloc, G.nid]
  · simp [Node.ln, val, alloc, G.nid]
  · refine ⟨set_grad (set_grad (set_grad
        (alloc st i (ops.div (val st (G.Leaf a)) (val st (G.Leaf b))) none) i seed)
        a (ops.mul ((st b).val) seed)) b (ops.mul ((st a).val) seed), ?_, ?_, ?_⟩
    · simp [backward, Node.div, propagate_backward, G.nid, set_grad_grad, set_grad_val, alloc,
        hab, hia, hib, Ne.symm hab, Ne.symm hia, Ne.symm hib]
    · simp [set_grad_grad, hab, Ne.symm hab]
    · simp [set_grad_grad]
  · refine ⟨set_grad (set_grad (alloc st i (ops.ln (val st (G.Leaf d))) none) i seed)
        d (ops.ln ((st d).val)), ?_, ?_⟩
    · simp [backward, Node.ln, propagate_backward, G.nid, set_grad_grad, set_grad_val, alloc, val]
    · simp [set_grad_grad]

/-- Witness for `div_ln_mis_tagged` at concrete inputs. -/
theorem div_ln_mis_tagged_witness :
    (Node.div opsZ (G.Leaf 0) (G.Leaf 1) 2 stD).1 = G.Prod 2 (G.Leaf 0) (G.Leaf 1)
    ∧ val (Node.div opsZ (G.Leaf 0) (G.Leaf 1) 2 stD).2 (Node.div opsZ (G.Leaf 0) (G.Leaf 1) 2 stD).1
      = opsZ.div (val stD (G.Leaf 0)) (val stD (G.Leaf 1))
    ∧ (Node.ln opsZ (G.Leaf 0) 2 stD).1 = G.Exp 2 (G.Leaf 0)
    ∧ val (Node.ln opsZ (G.Leaf 0) 2 stD).2 (Node.ln opsZ (G.Leaf 0) 2 stD).1
      = opsZ.ln (val stD (G.Leaf 0))
    ∧ (∃ st', backward opsZ (Node.div opsZ (G.Leaf 0) (G.Leaf 1) 2 stD).1 5
                (Node.div opsZ (G.Leaf 0) (G.Leaf 1) 2 stD).2 = some st'
        ∧ (st' 0).grad = some (opsZ.mul ((stD 1).val) 5)
        ∧ (st' 1).grad = some (opsZ.mul ((stD 0).val) 5))
    ∧ (∃ st', backward opsZ (Node.ln opsZ (G.Leaf 3) 2 stD).1 5
                (Node.ln opsZ (G.Leaf 3) 2 stD).2 = some st'
        ∧ (st' 3).grad = some (opsZ.ln ((stD 3).val))) :=
  div_ln_mis_tagged opsZ (G.Leaf 0) (G.Leaf 1) (G.Leaf 0) 0 1 3 2 5 stD
    (by decide) (by decide) (by decide)

/-- C6: in the `diamond` graph the leaf cell `0` is an operand of two
different parents, both reached in one backward traversal from the root.
Generically, its final stored gradient is `c5.value * seed` — exactly the
contribution computed through the last-visited parent (the `Prod` in cell
`2`), the earlier `Sum` parent's write of `seed` having been overwritten —
and the sibling leaves keep one parent's contribution each.  Concretely,
with cell values `1` (cell 0) and `2` (cell 5) and seed `1`, the stored
gradient is `2`, not the sum `1 + 2` of the two parents' contributions. -/
theorem overwrite_not_accumulate {T : Type} (ops : RealElementOps T) (seed : T) (st : St T) :
    (∃ st', backward ops diamond seed st = some st'
        ∧ (st' 0).grad = some (ops.mul ((st 5).val) seed)
        ∧ (st' 4).grad = some seed
        ∧ (st' 5).grad = some (ops.mul ((st 0).val) seed))
    ∧ (∃ st', backward opsZ diamond 1 stD = some st'
        ∧ (st' 0).grad = some 2
        ∧ (st' 0).grad ≠ some (1 + 2)) := by
  constructor
  · refine ⟨set_grad (set_grad (set_grad (set_grad (set_grad (set_grad (set_grad st 3 seed)
        1 seed) 2 seed) 0 seed) 4 seed) 0 (ops.mul ((st 5).val) seed)) 5 (ops.mul ((st 0).val) seed),
      ?_, ?_, ?_, ?_⟩
    · simp [backward, diamond, propagate_backward, G.nid, set_grad_grad, set_grad_val]
    · simp [set_grad_grad]
    · simp [set_grad_grad]
    · simp [set_grad_grad]
  · exact ⟨_, rfl, by decide, by decide⟩

/-- C7: dividing the leaf `3.1` (cell 0) by the leaf `0.0` (cell 1)
constructs a node — total, defined construction, no error — whose value is
positive infinity, per the underlying `f64` special-value semantics of `/`
rather than a distinguishable error. -/
theorem div_by_zero_yields_infinity :
    (Node.div opsF (G.Leaf 0) (G.Leaf 1) 2 stDiv).1 = G.Prod 2 (G.Leaf 0) (G.Leaf 1)
    ∧ val (Node.div opsF (G.Leaf 0) (G.Leaf 1) 2 stDiv).2
        (Node.div opsF (G.Leaf 0) (G.Leaf 1) 2 stDiv).1 = F.pinf := by
  refine ⟨rfl, ?_⟩
  simp only [Node.div, val, alloc, G.nid, opsF, stDiv]
  norm_num [F.div]

/-- C8: invoking `propagate_backward` on a non-leaf node whose gradient was
never seeded hits the unchecked `unwrap` of an absent optional — the
unrecoverable panic, embedded as `none`; and under the precondition that the
node's gradient is `Some`, the run succeeds, i.e. the panic branch is never
reached anywhere in the traversal. -/
theorem unseeded_propagate_panics {T : Type} (ops : RealElementOps T) (g g2 : G)
    (st st2 : St T) (hleaf : g.isLeaf = false) (hnone : (st g.nid).grad = none)
    (hsome : ((st2 g2.nid).grad).isSome) :
    propagate_backward ops g st = none ∧ (propagate_backward ops g2 st2).isSome := by
  constructor
  · cases g with
    | Leaf i => simp [G.isLeaf] at hleaf
    | Sum i l r => simp only [G.nid] at hnone; simp [propagate_backward, hnone]
    | Prod i l r => simp only [G.nid] at hnone; simp [propagate_backward, hnone]
    | Exp i c => simp only [G.nid] at hnone; simp [propagate_backward, hnone]
    | Ln i c => simp only [G.nid] at hnone; simp [propagate_backward, hnone]
    | Pow i b e => simp only [G.nid] at hnone; simp [propagate_backward, hnone]
  · exact propagate_backward_isSome ops g2 st2 hsome

/-- Witness for `unseeded_propagate_panics` at concrete inputs. -/
theorem unseeded_propagate_panics_witness :
    propagate_backward opsZ (G.Sum 2 (G.Leaf 0) (G.Leaf 1)) stW = none
    ∧ (propagate_backward opsZ (G.Leaf 0) (set_grad stW 0 1)).isSome :=
  unseeded_propagate_panics opsZ (G.Sum 2 (G.Leaf 0) (G.Leaf 1)) (G.Leaf 0) stW
    (set_grad stW 0 1) rfl rfl (by decide)

/-- C9: a successful backward pass mutates only gradient fields — every
cell's value is unchanged — and `set_grad`, the single mutator of the core,
also never touches a value: the value stored at construction is never
recomputed or rewritten.  (The variant tag and operand structure live in the
immutable `G` and are untouched by construction of the embedding, matching
the source, where no code path assigns to them.) -/
theorem backward_mutates_only_gradients {T : Type} (ops : RealElementOps T) (g : G)
    (seed : T) (st st' stm : St T) (i j k : Nat) (v : T)
    (h : backward ops g seed st = some st') :
    (st' j).val = (st j).val ∧ ((set_grad stm i v) k).val = (stm k).val := by
  constructor
  · have h2 : propagate_backward ops g (set_grad st g.nid seed) = some st' := by
      simpa [backward] using h
    rw [propagate_backward_val ops g _ _ h2 j, set_grad_val]
  · exact set_grad_val stm i v k

/-- Witness for `backward_mutates_only_gradients` at concrete inputs. -/
theorem backward_mutates_only_gradients_witness :
    ((set_grad stW 0 1) 0).val = (stW 0).val ∧ ((set_grad stW 2 3) 4).val = (stW 4).val :=
  backward_mutates_only_gradients opsZ (G.Leaf 0) 1 stW (set_grad stW 0 1) stW 2 0 4 3 rfl

/-- C10: the `AddAssign` implementation on `Node` panics unconditionally
with the message "Unexpected call to AddAssign on a Node.", for every pair
of argument nodes — even though `Node` implements the `Element` contract
(`src/interfaces/src/tensors.rs`), whose bound requires `AddAssign`.  No
input avoids the panic. -/
theorem add_assign_always_panics {T : Type} (x y : G × St T) :
    add_assign x y = PanicOr.panicked "Unexpected call to AddAssign on a Node." :=
  rfl

end Autodiff
